import Mathlib

/-!
Shallow embedding of the ChaMo_v2 `AdaptivePatternFilter`
(src/src/filtering/adaptive_filters.py) and the window-extraction utility
(src/src/filtering/utils.py).

Modelling conventions:
- Signal samples are real numbers (`ℝ`); the Python floats carrying
  configuration values (overlap, learning rate, threshold, confidence) are
  modelled as rationals (`ℚ`), which every float value is.
- The Python `dict` `self.signal_patterns` (insertion-ordered, first-match
  lookup, in-place overwrite of an existing key, append of a new key) is
  modelled as an insertion-ordered association list.
- Fallible Python code (a `raise` reaching the caller) is modelled with
  `Except Err`.  `range(start, stop, 0)` raising `ValueError`, `min` of an
  empty sequence raising `ValueError`, and numpy broadcasting errors each get
  an `Err` constructor.
- The filesystem touched by `load_patterns` / `save_patterns` is abstracted
  as a `FileSystem` record saying whether the pattern file exists, what a
  load would parse to, and whether a save succeeds.
-/

/-- Errors the embedded code can raise (each models a concrete Python
exception site). -/
inductive Err where
  /-- `validate_signal` rejecting an empty signal. -/
  | invalidSignal
  /-- `range(0, stop, 0)` raising `ValueError` when the window step is 0. -/
  | rangeZeroStep
  /-- `utils.extract_windows` rejecting an overlap outside `[0, 1)`. -/
  | overlapRange
  /-- `min()` over an empty pattern dict raising `ValueError`. -/
  | minEmptySeq
  /-- numpy raising on a shape-mismatched slice assignment. -/
  | broadcastMismatch
  /-- `json.load` raising while reading an existing pattern file. -/
  | loadFailure
  /-- `open`/`json.dump` raising while writing the pattern file. -/
  | saveFailure
  deriving DecidableEq

/-- One stored pattern: the fields of the per-key dict built in
`_learn_new_pattern` and `load_patterns`. -/
structure Pattern where
  signal : List ℝ
  confidence : ℚ
  count : ℕ
  last_updated : ℕ

/-- `self.signal_patterns`: an insertion-ordered mapping from key to pattern. -/
abbrev Store := List (String × Pattern)

/-- Python-dict insertion: overwrite in place when the key exists, append
otherwise. -/
def dictInsert (k : String) (v : α) (d : List (String × α)) : List (String × α) :=
  if (d.lookup k).isSome then
    d.map (fun kv => if kv.1 = k then (k, v) else kv)
  else
    d ++ [(k, v)]

/-- Python-dict `del`: remove the entry with the given key. -/
def dictDelete (k : String) (d : List (String × α)) : List (String × α) :=
  d.filter (fun kv => kv.1 != k)

/-- Python-dict `update`: fold the right-hand entries into the left dict. -/
def dictUpdate (d other : List (String × α)) : List (String × α) :=
  other.foldl (fun acc kv => dictInsert kv.1 kv.2 acc) d

/-- `self._parameters`: a dict of numeric parameter values. -/
abbrev Params := List (String × ℚ)

/-- Read one parameter (always present in the source after `__init__`). -/
def getParam (p : Params) (k : String) : ℚ := (p.lookup k).getD 0

/-- Coerce a numeric parameter to the natural number Python uses it as
(`int()` truncation; the parameters in question are non-negative). -/
def asNat (q : ℚ) : ℕ := (Int.floor q).toNat

def wsOf (p : Params) : ℕ := asNat (getParam p "window_size")

def overlapOf (p : Params) : ℚ := getParam p "overlap"

def lrOf (p : Params) : ℚ := getParam p "learning_rate"

def thetaOf (p : Params) : ℚ := getParam p "correlation_threshold"

def maxPatternsOf (p : Params) : ℕ := asNat (getParam p "max_patterns")

/-- `step = int(window_size * (1 - overlap))` as computed in
`_extract_windows` and `_process_signal`. -/
def stepOf (p : Params) : ℕ := asNat ((wsOf p : ℚ) * (1 - overlapOf p))

/-- The defaults set in `AdaptivePatternFilter.__init__`. -/
def defaultParams : Params :=
  [("window_size", 1000), ("overlap", 1/2), ("learning_rate", 1/10),
   ("correlation_threshold", 7/10), ("max_patterns", 50)]

/-- Number of iterations of `range(0, len(signal) - window_size + 1, step)`
for `step ≥ 1`. -/
def numWindows (n ws step : ℕ) : ℕ :=
  if n + 1 ≤ ws then 0 else (n - ws) / step + 1

/-- `signal[o : o + window_size]`. -/
def windowAt (sig : List ℝ) (ws o : ℕ) : List ℝ := (sig.drop o).take ws

/-- The window-extraction loop shared by `_extract_windows`
(adaptive_filters.py lines 54-61) and `utils.extract_windows`:
`step = int(window_size * (1 - overlap))`, then
`[signal[i : i + window_size] for i in range(0, len(signal) - window_size + 1, step)]`.
Python's `range` raises `ValueError` when `step` is 0; there is no clamping. -/
def extractWindowsCore (sig : List ℝ) (ws : ℕ) (ov : ℚ) : Except Err (List (List ℝ)) :=
  let step := asNat ((ws : ℚ) * (1 - ov))
  if step = 0 then .error .rangeZeroStep
  else .ok ((List.range (numWindows sig.length ws step)).map (fun k => windowAt sig ws (k * step)))

/-- `utils.extract_windows`: validates `0 <= overlap < 1`, then runs the same
loop. -/
def extract_windows (sig : List ℝ) (ws : ℕ) (ov : ℚ) : Except Err (List (List ℝ)) :=
  if ¬ (0 ≤ ov ∧ ov < 1) then .error .overlapRange
  else extractWindowsCore sig ws ov

/-- `min(self.signal_patterns.items(), key=lambda x: x[1]['confidence'])[0]`:
the first key attaining the minimum confidence (`min` keeps the earlier
element on ties), `none` on an empty dict (where Python `min` raises). -/
def minConfKey : Store → Option String
  | [] => none
  | kv :: rest =>
    some (rest.foldl (fun best kv' =>
      if kv'.2.confidence < best.2.confidence then kv' else best) kv).1

/-- `_learn_new_pattern` (lines 128-145): evict the minimum-confidence entry
when at or above capacity, then insert the window as a fresh pattern under the
key `"pattern_" + str(len(self.signal_patterns))`, and return the raw window. -/
def learnNewPattern (p : Params) (store : Store) (w : List ℝ) :
    Except Err (Store × List ℝ) :=
  if store.length ≥ maxPatternsOf p then
    match minConfKey store with
    | none => .error .minEmptySeq
    | some k =>
      let store' := dictDelete k store
      let pid := "pattern_" ++ toString store'.length
      .ok (dictInsert pid ⟨w, 1/2, 1, 0⟩ store', w)
  else
    let pid := "pattern_" ++ toString store.length
    .ok (dictInsert pid ⟨w, 1/2, 1, 0⟩ store, w)

/-- `update_pattern` (lines 147-159): when the key exists, blend the template,
bump the clamped confidence, increment the count, reset `last_updated`;
otherwise do nothing. -/
def updatePattern (p : Params) (store : Store) (pid : String) (neww : List ℝ) : Store :=
  match store.lookup pid with
  | none => store
  | some pat =>
    let lr := lrOf p
    let newsig := List.zipWith (fun a b => (1 - (lr : ℝ)) * a + (lr : ℝ) * b) pat.signal neww
    dictInsert pid ⟨newsig, min 1 (pat.confidence + 1/10), pat.count + 1, 0⟩ store

/-- Result record of `get_pattern_statistics`. -/
structure Stats where
  total_patterns : ℕ
  average_confidence : ℚ
  total_observations : ℕ
  deriving DecidableEq

/-- `get_pattern_statistics` (lines 199-214). -/
def getPatternStatistics (store : Store) : Stats :=
  if store.isEmpty then ⟨0, 0, 0⟩
  else
    ⟨store.length,
     (store.map (fun kv => kv.2.confidence)).sum / store.length,
     (store.map (fun kv => kv.2.count)).sum⟩

/-- `set_parameters` (lines 194-197): update only keys already present. -/
def setParameters (params other : Params) : Params :=
  other.foldl (fun acc kv =>
    if (acc.lookup kv.1).isSome then dictInsert kv.1 kv.2 acc else acc) params

/-- `self._parameters.update(kwargs)` executed at the top of `filter`
(line 41). -/
def filterParams (params₀ kwargs : Params) : Params := dictUpdate params₀ kwargs

/-- Abstraction of the filesystem state seen by `load_patterns` /
`save_patterns`: whether the pattern file exists, what parsing it yields
(`.error` models `json.load` raising), and whether writing it succeeds. -/
structure FileSystem where
  fileExists : Bool
  loadResult : Except Unit Store
  saveOk : Bool

/-- `load_patterns` (lines 161-174) as run from `__init__`: the store starts
empty, is replaced by the parsed file when the file exists, and a parse
failure propagates out of construction. -/
def loadPatterns (fs : FileSystem) : Except Err Store :=
  if fs.fileExists then
    match fs.loadResult with
    | .ok d => .ok d
    | .error _ => .error .loadFailure
  else .ok []

/-- `save_patterns` (lines 176-189): a write failure propagates to the
caller (there is no exception handling around it). -/
def savePatterns (fs : FileSystem) (_store : Store) : Except Err Unit :=
  if fs.saveOk then .ok () else .error .saveFailure

section Pipeline

open scoped Classical

/-- Arithmetic mean of a list of reals (`np.mean`). -/
noncomputable def listMean (v : List ℝ) : ℝ := v.sum / v.length

/-- `np.corrcoef(a, b)[0, 1]`: the Pearson correlation coefficient, `none`
standing for the `nan` numpy produces when either argument has zero
variance. -/
noncomputable def pearson (a b : List ℝ) : Option ℝ :=
  let da := a.map (fun x => x - listMean a)
  let db := b.map (fun x => x - listMean b)
  let va := (da.map (fun x => x ^ 2)).sum
  let vb := (db.map (fun x => x ^ 2)).sum
  if va = 0 ∨ vb = 0 then none
  else some ((List.zipWith (· * ·) da db).sum / Real.sqrt (va * vb))

/-- One entry of the list built by `_find_matching_patterns`. -/
structure Match where
  id : String
  correlation : ℝ
  pattern : Pattern

/-- `_find_matching_patterns` (lines 94-108): for each stored pattern of the
window's length, compute the correlation and keep the pattern when the
correlation is strictly above the threshold.  `nan` (zero variance) compares
false and is silently skipped.  The method only reads the store. -/
noncomputable def findMatchingPatterns (store : Store) (w : List ℝ) (θ : ℚ) : List Match :=
  store.foldl (fun ms kv =>
    if kv.2.signal.length = w.length then
      match pearson w kv.2.signal with
      | some r => if (θ : ℝ) < r then ms ++ [⟨kv.1, r, kv.2⟩] else ms
      | none => ms
    else ms) []

/-- One iteration of the `_apply_patterns` loop (lines 116-119): accumulate
`weight * template` into the blended window and `weight` into the total. -/
noncomputable def applyStep (acc : List ℝ × ℝ) (m : Match) : List ℝ × ℝ :=
  let weight := m.correlation * (m.pattern.confidence : ℝ)
  (List.zipWith (fun x t => x + weight * t) acc.1 m.pattern.signal, acc.2 + weight)

/-- `_apply_patterns` (lines 110-126): confidence- and correlation-weighted
blend of the matched templates, falling back to the raw window when the total
weight is not positive. -/
noncomputable def applyPatterns (w : List ℝ) (pmatches : List Match) : List ℝ :=
  let acc := pmatches.foldl applyStep (List.replicate w.length (0 : ℝ), (0 : ℝ))
  if 0 < acc.2 then acc.1.map (· / acc.2) else w

/-- `filtered_signal[start:end] += b` for a slice known to lie inside the
buffer (`end ≤ len`), the only way `_process_signal` uses it. -/
def sliceAddAt (a : List ℝ) (o : ℕ) (b : List ℝ) : List ℝ :=
  a.take o ++ List.zipWith (· + ·) ((a.drop o).take b.length) b ++ a.drop (o + b.length)

/-- The per-window loop of `_process_signal` (lines 71-86), threading the
accumulator, the coverage counts and the store.  numpy raises when the slice
assignment target does not match the reconstructed window's shape; that is
the `broadcastMismatch` branch. -/
noncomputable def processWindows (p : Params) :
    List (List ℝ) → ℕ → List ℝ → List ℝ → Store → Except Err (List ℝ × List ℝ × Store)
  | [], _, f, wt, st => .ok (f, wt, st)
  | w :: rest, i, f, wt, st =>
    let pmatches := findMatchingPatterns st w (thetaOf p)
    let res : Except Err (Store × List ℝ) :=
      if pmatches.isEmpty then learnNewPattern p st w
      else .ok (st, applyPatterns w pmatches)
    match res with
    | .error e => .error e
    | .ok (st', fw) =>
      let start := i * stepOf p
      if start + wsOf p ≤ f.length ∧ fw.length = wsOf p then
        processWindows p rest (i + 1) (sliceAddAt f start fw)
          (sliceAddAt wt start (List.replicate (wsOf p) (1 : ℝ))) st'
      else .error .broadcastMismatch

/-- `weights[weights == 0] = 1; filtered_signal /= weights` (lines 89-90). -/
noncomputable def normalizeByWeights (f wt : List ℝ) : List ℝ :=
  (f.zip wt).map fun xc => xc.1 / (if xc.2 = 0 then 1 else xc.2)

/-- `_process_signal` (lines 63-92). -/
noncomputable def processSignal (p : Params) (st : Store) (sig : List ℝ)
    (windows : List (List ℝ)) : Except Err (List ℝ × Store) :=
  match processWindows p windows 0 (List.replicate sig.length 0)
      (List.replicate sig.length 0) st with
  | .error e => .error e
  | .ok (f, wt, st') => .ok (normalizeByWeights f wt, st')

/-- `AdaptivePatternFilter.filter` (lines 36-52): validate, merge the keyword
arguments into the parameter dict, extract windows, process, save, return.
The store argument is the state loaded at construction; the returned store is
the mutated `self.signal_patterns`. -/
noncomputable def filterSignal (fs : FileSystem) (params₀ : Params) (st : Store)
    (sig : List ℝ) (kwargs : Params) : Except Err (List ℝ × Store) :=
  if sig.isEmpty then .error .invalidSignal
  else
    let p := filterParams params₀ kwargs
    match extractWindowsCore sig (wsOf p) (overlapOf p) with
    | .error e => .error e
    | .ok windows =>
      match processSignal p st sig windows with
      | .error e => .error e
      | .ok (out, st') =>
        match savePatterns fs st' with
        | .error e => .error e
        | .ok _ => .ok (out, st')

end Pipeline

/-- Modelled from the spec's words (§4.1): the windows at offsets
`0, step, 2·step, …` for as long as `offset + window_size ≤ signal.length`,
in ascending-offset order.  Used only to compare the source's extraction loop
against the spec's description. -/
def specWindows (sig : List ℝ) (ws step : ℕ) : List (List ℝ) :=
  ((List.range (sig.length + 1)).filter (fun k => decide (k * step + ws ≤ sig.length))).map
    (fun k => windowAt sig ws (k * step))

/-! ### Concrete instances used by counterexamples and witnesses -/

/-- A filesystem with no pre-existing pattern file and a working save. -/
def fsPlain : FileSystem := ⟨false, .ok [], true⟩

/-- A filesystem where writing the pattern file fails. -/
def fsNoWrite : FileSystem := ⟨false, .ok [], false⟩

/-- A parameter dict with `max_patterns = 2` (other keys as shipped). -/
def exParams : Params :=
  [("window_size", 100), ("overlap", 1/2), ("learning_rate", 1/10),
   ("correlation_threshold", 7/10), ("max_patterns", 2)]

/-- A store at capacity 2 where `pattern_0` has the minimum confidence. -/
def exStoreC2 : Store :=
  [("pattern_0", ⟨[(0 : ℝ)], 2/5, 1, 0⟩), ("pattern_1", ⟨[(1 : ℝ)], 9/10, 1, 0⟩)]

/-- A store at capacity 2 where `pattern_0` has the minimum confidence and
`pattern_1` carries an observation count of 2. -/
def exStoreC3 : Store :=
  [("pattern_0", ⟨[(3 : ℝ)], 1/5, 1, 0⟩), ("pattern_1", ⟨[(4 : ℝ)], 4/5, 2, 0⟩)]



/-! ### Helper lemmas about the dict model -/

lemma lookup_replace_ne {α : Type} (d : List (String × α)) (k k' : String) (v : α)
    (h : k' ≠ k) :
    (d.map (fun kv => if kv.1 = k then (k, v) else kv)).lookup k' = d.lookup k' := by
  induction d with
  | nil => rfl
  | cons kv rest ih =>
    obtain ⟨ka, va⟩ := kv
    by_cases hk : ka = k
    · subst hk
      simp only [List.map_cons, if_true]
      simp only [List.lookup_cons, beq_false_of_ne h]
      exact ih
    · simp only [List.map_cons, if_neg (show ¬ (ka, va).1 = k from hk), List.lookup_cons]
      cases hkk : k' == ka <;> simp [ih]

lemma lookup_append_single_ne {α : Type} (d : List (String × α)) (k k' : String) (v : α)
    (h : k' ≠ k) :
    (d ++ [(k, v)]).lookup k' = d.lookup k' := by
  induction d with
  | nil => simp [List.lookup_cons, beq_false_of_ne h, List.lookup_nil]
  | cons kv rest ih =>
    obtain ⟨ka, va⟩ := kv
    simp only [List.cons_append, List.lookup_cons]
    cases hkk : k' == ka <;> simp [ih]

lemma lookup_dictInsert_ne {α : Type} (d : List (String × α)) (k k' : String) (v : α)
    (h : k' ≠ k) :
    (dictInsert k v d).lookup k' = d.lookup k' := by
  unfold dictInsert
  by_cases hp : (d.lookup k).isSome
  · simp only [hp, if_true]
    exact lookup_replace_ne d k k' v h
  · simp only [hp, if_false]
    exact lookup_append_single_ne d k k' v h

lemma lookup_replace_self {α : Type} (d : List (String × α)) (k : String) (v : α)
    (h : (d.lookup k).isSome) :
    (d.map (fun kv => if kv.1 = k then (k, v) else kv)).lookup k = some v := by
  induction d with
  | nil => simp [List.lookup_nil] at h
  | cons kv rest ih =>
    obtain ⟨ka, va⟩ := kv
    by_cases hk : ka = k
    · subst hk
      simp [List.map_cons, if_pos rfl, List.lookup_cons]
    · have hne : (k == ka) = false := beq_false_of_ne (fun he => hk he.symm)
      simp only [List.map_cons, if_neg (show ¬ (ka, va).1 = k from hk), List.lookup_cons, hne]
      exact ih (by simpa [List.lookup_cons, hne] using h)

lemma lookup_append_single_self {α : Type} (d : List (String × α)) (k : String) (v : α)
    (h : d.lookup k = none) :
    (d ++ [(k, v)]).lookup k = some v := by
  induction d with
  | nil => simp [List.lookup_cons]
  | cons kv rest ih =>
    obtain ⟨ka, va⟩ := kv
    cases hkk : k == ka with
    | true => simp [List.lookup_cons, hkk] at h
    | false =>
      simp only [List.cons_append, List.lookup_cons, hkk]
      exact ih (by simpa [List.lookup_cons, hkk] using h)

lemma lookup_dictInsert_self {α : Type} (d : List (String × α)) (k : String) (v : α) :
    (dictInsert k v d).lookup k = some v := by
  unfold dictInsert
  by_cases hp : (d.lookup k).isSome
  · simp only [hp, if_true]
    exact lookup_replace_self d k v hp
  · simp only [hp, if_false]
    exact lookup_append_single_self d k v (Option.not_isSome_iff_eq_none.mp hp)

lemma lookup_setParameters_absent (params other : Params) (k : String)
    (h : params.lookup k = none) :
    (setParameters params other).lookup k = none := by
  unfold setParameters
  induction other generalizing params with
  | nil => simpa using h
  | cons kv rest ih =>
    simp only [List.foldl_cons]
    by_cases hk : kv.1 = k
    · have : (params.lookup kv.1).isSome = false := by
        rw [hk, h]; rfl
      simp only [this, Bool.false_eq_true, if_false]
      exact ih params h
    · by_cases hp : (params.lookup kv.1).isSome
      · simp only [hp, if_true]
        exact ih _ ((lookup_dictInsert_ne params kv.1 k kv.2 (fun he => hk he.symm)).trans h)
      · simp only [hp, if_false]
        exact ih params h

lemma lookup_setParameters_not_given (params other : Params) (k : String)
    (h : other.lookup k = none) :
    (setParameters params other).lookup k = params.lookup k := by
  unfold setParameters
  induction other generalizing params with
  | nil => rfl
  | cons kv rest ih =>
    obtain ⟨ka, va⟩ := kv
    have hne : ¬ k = ka := by
      intro he
      simp [List.lookup_cons, beq_false_of_ne, he] at h
    have hrest : rest.lookup k = none := by
      simpa [List.lookup_cons, beq_false_of_ne hne] using h
    simp only [List.foldl_cons]
    by_cases hp : (params.lookup (ka, va).1).isSome
    · simp only [hp, if_true]
      rw [ih _ hrest]
      exact lookup_dictInsert_ne params ka k va hne
    · simp only [hp, if_false]
      exact ih params hrest

lemma lookup_dictUpdate_not_given (d other : List (String × ℚ)) (k : String)
    (h : other.lookup k = none) :
    (dictUpdate d other).lookup k = d.lookup k := by
  unfold dictUpdate
  induction other generalizing d with
  | nil => rfl
  | cons kv rest ih =>
    obtain ⟨ka, va⟩ := kv
    have hne : ¬ k = ka := by
      intro he
      simp [List.lookup_cons, beq_false_of_ne, he] at h
    have hrest : rest.lookup k = none := by
      simpa [List.lookup_cons, beq_false_of_ne hne] using h
    simp only [List.foldl_cons]
    rw [ih _ hrest]
    exact lookup_dictInsert_ne d ka k va hne

/-! ### Window extraction -/

lemma range_filter_lt (N m : ℕ) :
    (List.range N).filter (fun k => decide (k < m)) = List.range (min m N) := by
  induction N with
  | zero => simp
  | succ n ih =>
    rw [List.range_succ, List.filter_append, ih]
    by_cases h : n < m
    · have h1 : min m (n + 1) = min m n + 1 := by omega
      have h2 : min m n = n := by omega
      simp [h, h1, h2, List.range_succ]
    · have h1 : min m (n + 1) = min m n := by omega
      simp [h, h1]

lemma windowAt_length (sig : List ℝ) (ws o : ℕ) (h : o + ws ≤ sig.length) :
    (windowAt sig ws o).length = ws := by
  simp only [windowAt, List.length_take, List.length_drop]
  omega

lemma numWindows_bound (n ws step k : ℕ) (hstep : 1 ≤ step)
    (hk : k < numWindows n ws step) : k * step + ws ≤ n := by
  unfold numWindows at hk
  by_cases h : n + 1 ≤ ws
  · simp [h] at hk
  · simp only [h, if_false] at hk
    have hwn : ws ≤ n := by omega
    have hk' : k ≤ (n - ws) / step := by omega
    have : k * step ≤ (n - ws) / step * step := Nat.mul_le_mul_right step hk'
    have hdiv : (n - ws) / step * step ≤ n - ws := Nat.div_mul_le_self _ _
    omega

lemma extractWindowsCore_eq_spec (sig : List ℝ) (ws : ℕ) (ov : ℚ)
    (hws : 1 ≤ ws) (hstep : 1 ≤ asNat ((ws : ℚ) * (1 - ov))) :
    extractWindowsCore sig ws ov =
      .ok (specWindows sig ws (asNat ((ws : ℚ) * (1 - ov)))) := by
  set step := asNat ((ws : ℚ) * (1 - ov)) with hstepdef
  have hstep0 : ¬ step = 0 := by omega
  unfold extractWindowsCore
  rw [← hstepdef, if_neg hstep0]
  unfold specWindows
  congr 1
  set n := sig.length
  congr 1
  by_cases h : n + 1 ≤ ws
  · have : numWindows n ws step = 0 := by simp [numWindows, h]
    rw [this, List.range_zero]
    symm
    rw [List.filter_eq_nil_iff]
    intro k _
    simp only [decide_eq_true_eq]
    omega
  · have hwn : ws ≤ n := by omega
    have hcongr : ∀ k ∈ List.range (n + 1),
        (decide (k * step + ws ≤ n)) = (decide (k < (n - ws) / step + 1)) := by
      intro k _
      by_cases hb : k * step + ws ≤ n
      · have h1 : k ≤ (n - ws) / step := (Nat.le_div_iff_mul_le (by omega)).mpr (by omega)
        have h1' : k < (n - ws) / step + 1 := by omega
        simp [hb, h1']
      · have h2 : ¬ k ≤ (n - ws) / step := by
          intro hle
          have hmul : k * step ≤ (n - ws) / step * step := Nat.mul_le_mul_right step hle
          have hdm := Nat.div_mul_le_self (n - ws) step
          omega
        have h2' : ¬ k < (n - ws) / step + 1 := by omega
        simp [hb, h2']
    rw [List.filter_congr hcongr, range_filter_lt]
    have hm : (n - ws) / step + 1 ≤ n + 1 := by
      have := Nat.div_le_self (n - ws) step
      omega
    have : min ((n - ws) / step + 1) (n + 1) = (n - ws) / step + 1 := by omega
    rw [this]
    simp [numWindows, h]

/-! ### Matcher -/

lemma mem_findMatchingPatterns_aux (store : Store) (w : List ℝ) (θ : ℚ)
    (acc : List Match) (m : Match) :
    m ∈ store.foldl (fun ms kv =>
      if kv.2.signal.length = w.length then
        match pearson w kv.2.signal with
        | some r => if (θ : ℝ) < r then ms ++ [⟨kv.1, r, kv.2⟩] else ms
        | none => ms
      else ms) acc ↔
    m ∈ acc ∨ ((m.id, m.pattern) ∈ store ∧ m.pattern.signal.length = w.length ∧
      pearson w m.pattern.signal = some m.correlation ∧ (θ : ℝ) < m.correlation) := by
  induction store generalizing acc with
  | nil => simp
  | cons kv rest ih =>
    simp only [List.foldl_cons, List.mem_cons]
    rw [ih]
    constructor
    · rintro (hacc | hrest)
      · by_cases hlen : kv.2.signal.length = w.length
        · simp only [hlen, if_true] at hacc
          cases hr : pearson w kv.2.signal with
          | none => simp only [hr] at hacc; exact Or.inl hacc
          | some r =>
            simp only [hr] at hacc
            by_cases hθ : (θ : ℝ) < r
            · simp only [hθ, if_true, List.mem_append, List.mem_singleton] at hacc
              rcases hacc with hacc | hacc
              · exact Or.inl hacc
              · subst hacc
                exact Or.inr ⟨Or.inl (by cases kv; rfl), hlen, hr, hθ⟩
            · simp only [hθ, if_false] at hacc
              exact Or.inl hacc
        · simp only [hlen, if_false] at hacc
          exact Or.inl hacc
      · exact Or.inr ⟨Or.inr hrest.1, hrest.2⟩
    · rintro (hacc | ⟨hmem | hmem, hlen, hr, hθ⟩)
      · by_cases hl : kv.2.signal.length = w.length
        · simp only [hl, if_true]
          cases hp : pearson w kv.2.signal with
          | none => exact Or.inl hacc
          | some r =>
            by_cases hθ' : (θ : ℝ) < r
            · simp only [hθ', if_true]
              exact Or.inl (List.mem_append_left _ hacc)
            · simp only [hθ', if_false]
              exact Or.inl hacc
        · simp only [hl, if_false]
          exact Or.inl hacc
      · have hkv1 : kv.1 = m.id := by rw [← hmem]
        have hkv2 : kv.2 = m.pattern := by rw [← hmem]
        rw [hkv1, hkv2]
        simp only [hlen, if_true, hr, hθ, if_true]
        refine Or.inl (List.mem_append_right _ ?_)
        cases m
        simp
      · exact Or.inr ⟨hmem, hlen, hr, hθ⟩

lemma mem_findMatchingPatterns (store : Store) (w : List ℝ) (θ : ℚ) (m : Match) :
    m ∈ findMatchingPatterns store w θ ↔
      ((m.id, m.pattern) ∈ store ∧ m.pattern.signal.length = w.length ∧
        pearson w m.pattern.signal = some m.correlation ∧ (θ : ℝ) < m.correlation) := by
  unfold findMatchingPatterns
  rw [mem_findMatchingPatterns_aux]
  simp

/-! ### Reconstruction and assembly -/

lemma foldl_applyStep_length (ms : List Match) (n : ℕ)
    (hl : ∀ m ∈ ms, m.pattern.signal.length = n) (acc : List ℝ × ℝ)
    (hacc : acc.1.length = n) :
    (ms.foldl applyStep acc).1.length = n := by
  induction ms generalizing acc with
  | nil => exact hacc
  | cons m rest ih =>
    simp only [List.foldl_cons]
    refine ih (fun m' hm' => hl m' (List.mem_cons_of_mem _ hm')) _ ?_
    simp only [applyStep, List.length_zipWith, hacc, hl m (List.mem_cons_self _ _)]
    omega

lemma applyPatterns_length (w : List ℝ) (ms : List Match)
    (hl : ∀ m ∈ ms, m.pattern.signal.length = w.length) :
    (applyPatterns w ms).length = w.length := by
  unfold applyPatterns
  by_cases hw : 0 < (ms.foldl applyStep (List.replicate w.length (0 : ℝ), (0 : ℝ))).2
  · simp only [hw, if_true, List.length_map]
    exact foldl_applyStep_length ms w.length hl _ (by simp)
  · simp only [hw, if_false]

lemma minConfKey_isSome (store : Store) (h : store ≠ []) : (minConfKey store).isSome := by
  cases store with
  | nil => exact absurd rfl h
  | cons kv rest => rfl

lemma learnNewPattern_ok (p : Params) (st : Store) (w : List ℝ)
    (h : 1 ≤ maxPatternsOf p) :
    ∃ st', learnNewPattern p st w = .ok (st', w) := by
  unfold learnNewPattern
  by_cases hcap : st.length ≥ maxPatternsOf p
  · have hne : st ≠ [] := by
      intro he
      subst he
      simp only [List.length_nil] at hcap
      omega
    cases hmk : minConfKey st with
    | none =>
      exact absurd (minConfKey_isSome st hne) (by simp [hmk])
    | some k =>
      refine ⟨dictInsert ("pattern_" ++ toString (dictDelete k st).length)
        ⟨w, 1/2, 1, 0⟩ (dictDelete k st), ?_⟩
      simp only [hcap, if_true, hmk]
  · refine ⟨dictInsert ("pattern_" ++ toString st.length) ⟨w, 1/2, 1, 0⟩ st, ?_⟩
    simp only [hcap, if_false]

lemma sliceAddAt_length (a : List ℝ) (o : ℕ) (b : List ℝ)
    (h : o + b.length ≤ a.length) :
    (sliceAddAt a o b).length = a.length := by
  simp only [sliceAddAt, List.length_append, List.length_take, List.length_zipWith,
    List.length_drop]
  omega

lemma normalizeByWeights_length (f wt : List ℝ) :
    (normalizeByWeights f wt).length = min f.length wt.length := by
  simp [normalizeByWeights]

lemma processWindows_ok (p : Params) (n : ℕ) (hmax : 1 ≤ maxPatternsOf p) :
    ∀ (L : List (List ℝ)) (i : ℕ) (f wt : List ℝ) (st : Store),
      f.length = n → wt.length = n →
      (∀ j (hj : j < L.length),
        (L.get ⟨j, hj⟩).length = wsOf p ∧ (i + j) * stepOf p + wsOf p ≤ n) →
      ∃ f' wt' st', processWindows p L i f wt st = .ok (f', wt', st') ∧
        f'.length = n ∧ wt'.length = n := by
  intro L
  induction L with
  | nil =>
    intro i f wt st hf hwt _
    exact ⟨f, wt, st, rfl, hf, hwt⟩
  | cons w rest ih =>
    intro i f wt st hf hwt hwin
    obtain ⟨hwlen, hbound⟩ := hwin 0 (by simp)
    simp only [List.get] at hwlen
    have hbound' : i * stepOf p + wsOf p ≤ n := by simpa using hbound
    have hrest : ∀ j (hj : j < rest.length),
        (rest.get ⟨j, hj⟩).length = wsOf p ∧ ((i + 1) + j) * stepOf p + wsOf p ≤ n := by
      intro j hj
      have hj1 := hwin (j + 1) (by simpa using Nat.succ_lt_succ hj)
      constructor
      · exact (by simpa [List.get] using hj1.1)
      · have h2 := hj1.2
        have he : (i + 1 + j) = (i + (j + 1)) := by omega
        rw [he]
        exact h2
    simp only [processWindows]
    by_cases hemp : (findMatchingPatterns st w (thetaOf p)).isEmpty
    · obtain ⟨st2, hlearn⟩ := learnNewPattern_ok p st w hmax
      rw [if_pos hemp, hlearn]
      dsimp only
      rw [hf, if_pos (show i * stepOf p + wsOf p ≤ n ∧ w.length = wsOf p from ⟨hbound', hwlen⟩)]
      refine ih (i + 1) _ _ st2 ?_ ?_ hrest
      · rw [sliceAddAt_length f _ w (by rw [hwlen, hf]; omega)]
        exact hf
      · rw [sliceAddAt_length wt _ _ (by rw [List.length_replicate, hwt]; omega)]
        exact hwt
    · rw [if_neg hemp]
      dsimp only
      have hfw : (applyPatterns w (findMatchingPatterns st w (thetaOf p))).length = wsOf p := by
        rw [applyPatterns_length w _ ?_, hwlen]
        intro m hm
        exact ((mem_findMatchingPatterns st w (thetaOf p) m).mp hm).2.1
      rw [hf, if_pos (show i * stepOf p + wsOf p ≤ n ∧
        (applyPatterns w (findMatchingPatterns st w (thetaOf p))).length = wsOf p from
          ⟨hbound', hfw⟩)]
      refine ih (i + 1) _ _ st ?_ ?_ hrest
      · rw [sliceAddAt_length f _ _ (by rw [hfw, hf]; omega)]
        exact hf
      · rw [sliceAddAt_length wt _ _ (by rw [List.length_replicate, hwt]; omega)]
        exact hwt

lemma extractWindowsCore_ok_elim (sig : List ℝ) (ws : ℕ) (ov : ℚ) (windows : List (List ℝ))
    (hstep : 1 ≤ asNat ((ws : ℚ) * (1 - ov)))
    (h : extractWindowsCore sig ws ov = .ok windows) :
    windows = (List.range (numWindows sig.length ws (asNat ((ws : ℚ) * (1 - ov))))).map
      (fun k => windowAt sig ws (k * asNat ((ws : ℚ) * (1 - ov)))) := by
  unfold extractWindowsCore at h
  rw [if_neg (by omega)] at h
  exact (Except.ok.injEq _ _).mp h |>.symm

lemma processSignal_ok (p : Params) (st : Store) (sig : List ℝ) (windows : List (List ℝ))
    (hmax : 1 ≤ maxPatternsOf p) (hstep : 1 ≤ stepOf p)
    (hwin : extractWindowsCore sig (wsOf p) (overlapOf p) = .ok windows) :
    ∃ out st', processSignal p st sig windows = .ok (out, st') ∧
      out.length = sig.length := by
  have hw := extractWindowsCore_ok_elim sig (wsOf p) (overlapOf p) windows hstep hwin
  have hstep' : stepOf p = asNat ((wsOf p : ℚ) * (1 - overlapOf p)) := rfl
  have hwlen : ∀ j (hj : j < windows.length),
      (windows.get ⟨j, hj⟩).length = wsOf p ∧ (0 + j) * stepOf p + wsOf p ≤ sig.length := by
    intro j hj
    have hjlt : j < numWindows sig.length (wsOf p) (stepOf p) := by
      rw [hw] at hj
      simpa [hstep'] using hj
    have hb : j * stepOf p + wsOf p ≤ sig.length :=
      numWindows_bound sig.length (wsOf p) (stepOf p) j hstep hjlt
    constructor
    · rw [List.get_eq_getElem]
      simp only [hw, List.getElem_map, List.getElem_range]
      rw [← hstep']
      exact windowAt_length sig (wsOf p) (j * stepOf p) hb
    · simpa using hb
  obtain ⟨f', wt', st', hrun, hf', hwt'⟩ :=
    processWindows_ok p sig.length hmax windows 0
      (List.replicate sig.length 0) (List.replicate sig.length 0) st
      (by simp) (by simp) hwlen
  refine ⟨normalizeByWeights f' wt', st', ?_, ?_⟩
  · unfold processSignal
    rw [hrun]
  · rw [normalizeByWeights_length, hf', hwt']
    omega

lemma filterSignal_ok (fs : FileSystem) (params₀ : Params) (st : Store) (sig : List ℝ)
    (kwargs : Params) (hne : sig ≠ [])
    (hstep : 1 ≤ stepOf (filterParams params₀ kwargs))
    (hmax : 1 ≤ maxPatternsOf (filterParams params₀ kwargs))
    (hsave : fs.saveOk = true) :
    ∃ out st', filterSignal fs params₀ st sig kwargs = .ok (out, st') ∧
      out.length = sig.length := by
  unfold filterSignal
  rw [if_neg (by simpa [List.isEmpty_iff] using hne)]
  dsimp only
  have hextract : extractWindowsCore sig (wsOf (filterParams params₀ kwargs))
      (overlapOf (filterParams params₀ kwargs)) =
      .ok ((List.range (numWindows sig.length (wsOf (filterParams params₀ kwargs))
          (stepOf (filterParams params₀ kwargs)))).map
        (fun k => windowAt sig (wsOf (filterParams params₀ kwargs))
          (k * stepOf (filterParams params₀ kwargs)))) := by
    unfold extractWindowsCore
    rw [if_neg (show ¬ asNat ((wsOf (filterParams params₀ kwargs) : ℚ) *
      (1 - overlapOf (filterParams params₀ kwargs))) = 0 from by
        have : stepOf (filterParams params₀ kwargs) =
          asNat ((wsOf (filterParams params₀ kwargs) : ℚ) *
            (1 - overlapOf (filterParams params₀ kwargs))) := rfl
        omega)]
    rfl
  rw [hextract]
  obtain ⟨out, st', hps, hlen⟩ := processSignal_ok (filterParams params₀ kwargs) st sig _
    hmax hstep hextract
  dsimp only
  rw [hps]
  dsimp only
  rw [show savePatterns fs st' = .ok () from by simp [savePatterns, hsave]]
  exact ⟨out, st', rfl, hlen⟩

lemma normalizeByWeights_replicate_zero (n : ℕ) :
    normalizeByWeights (List.replicate n (0 : ℝ)) (List.replicate n 0) =
      List.replicate n 0 := by
  unfold normalizeByWeights
  induction n with
  | zero => rfl
  | succ k ih =>
    simp only [List.replicate_succ, List.zip_cons_cons, List.map_cons] at ih ⊢
    rw [ih]
    norm_num

lemma filterSignal_short (fs : FileSystem) (params₀ : Params) (st : Store) (sig : List ℝ)
    (kwargs : Params) (hne : sig ≠ [])
    (hshort : sig.length < wsOf (filterParams params₀ kwargs))
    (hstep : 1 ≤ stepOf (filterParams params₀ kwargs))
    (hsave : fs.saveOk = true) :
    filterSignal fs params₀ st sig kwargs = .ok (List.replicate sig.length 0, st) := by
  unfold filterSignal
  rw [if_neg (by simpa [List.isEmpty_iff] using hne)]
  dsimp only
  have hnum : numWindows sig.length (wsOf (filterParams params₀ kwargs))
      (stepOf (filterParams params₀ kwargs)) = 0 := by
    unfold numWindows
    rw [if_pos (by omega)]
  have hextract : extractWindowsCore sig (wsOf (filterParams params₀ kwargs))
      (overlapOf (filterParams params₀ kwargs)) = .ok [] := by
    unfold extractWindowsCore
    rw [if_neg (show ¬ asNat ((wsOf (filterParams params₀ kwargs) : ℚ) *
        (1 - overlapOf (filterParams params₀ kwargs))) = 0 from by
      have hd : stepOf (filterParams params₀ kwargs) =
        asNat ((wsOf (filterParams params₀ kwargs) : ℚ) *
          (1 - overlapOf (filterParams params₀ kwargs))) := rfl
      omega)]
    rw [show asNat ((wsOf (filterParams params₀ kwargs) : ℚ) *
      (1 - overlapOf (filterParams params₀ kwargs))) =
        stepOf (filterParams params₀ kwargs) from rfl, hnum]
    rfl
  rw [hextract]
  dsimp only
  have hps : processSignal (filterParams params₀ kwargs) st sig [] =
      .ok (List.replicate sig.length 0, st) := by
    unfold processSignal processWindows
    dsimp only
    rw [normalizeByWeights_replicate_zero]
  rw [hps]
  dsimp only
  rw [show savePatterns fs st = .ok () from by simp [savePatterns, hsave]]

/-! ### Claim theorems -/

/-- C2 (code bug): evaluating `_learn_new_pattern` on a store at capacity
`max_patterns = 2` holding `pattern_0` (confidence 0.4) and `pattern_1`
(confidence 0.9).  The code does remove the minimum-confidence entry
`pattern_0`, but the new key `"pattern_" + str(1)` collides with the surviving
entry `pattern_1`, which is silently overwritten: the store ends with a single
entry whose confidence is the fresh 0.5 instead of 0.9.  The claim's
"every other entry is left unchanged" is violated. -/
theorem c2_eviction_overwrite :
    (learnNewPattern exParams exStoreC2 [(5 : ℝ)]).toOption.map
      (fun r => (r.1.length, (r.1.lookup "pattern_0").isNone,
        (r.1.lookup "pattern_1").map Pattern.confidence)) =
    some (1, true, some (1/2)) := by
  norm_num +decide [learnNewPattern, exParams, exStoreC2, minConfKey, dictDelete, dictInsert,
    maxPatternsOf, getParam, asNat, List.lookup, Except.toOption,
    show ("pattern_" ++ toString 1) = "pattern_1" from rfl]

/-- C3 (code bug): same capacity-eviction scenario with distinct data.  Before
the insertion the key `pattern_1` belongs to a surviving pattern with
confidence 0.8 and observation count 2; after `_learn_new_pattern` the same
key holds the freshly learned pattern (confidence 0.5, count 1): the key
generated from the store's length is reused for a different pattern and
silently overwrites the survivor, contradicting "unique within the store,
never reused within a session". -/
theorem c3_key_reuse :
    (exStoreC3.lookup "pattern_1").map (fun q => (q.confidence, q.count)) = some (4/5, 2) ∧
    (learnNewPattern exParams exStoreC3 [(7 : ℝ)]).toOption.map
      (fun r => ((r.1.lookup "pattern_1").map (fun q => (q.confidence, q.count)),
        r.1.length)) = some (some (1/2, 1), 1) := by
  constructor
  · rfl
  · norm_num +decide [learnNewPattern, exParams, exStoreC3, minConfKey, dictDelete, dictInsert,
      maxPatternsOf, getParam, asNat, List.lookup, Except.toOption,
      show ("pattern_" ++ toString 1) = "pattern_1" from rfl]

/-- C1 (counterexample): with the valid configuration `window_size = 1`,
`overlap = 0.5`, the step `int(1 * 0.5)` is 0 and Python's `range` raises
`ValueError`, so `filter` raises instead of returning a signal of the input's
length. -/
theorem c1_counterexample :
    filterSignal fsPlain defaultParams [] [(1:ℝ)] [("window_size", 1), ("overlap", 1/2)] =
      .error .rangeZeroStep := by
  norm_num +decide [filterSignal, fsPlain, filterParams, dictUpdate, dictInsert, defaultParams,
    extractWindowsCore, asNat, wsOf, overlapOf, getParam, List.lookup, beq_false_of_ne]

/-- C1 (amended): for every non-empty signal and merged parameter
configuration whose window step `int(window_size * (1 - overlap))` is at
least 1 and whose `max_patterns` is at least 1, and whenever saving the
pattern file succeeds, `filter` returns an output signal of exactly the
input's length. -/
theorem c1_length_preservation (fs : FileSystem) (params₀ : Params) (st : Store)
    (sig : List ℝ) (kwargs : Params) (hne : sig ≠ [])
    (hstep : 1 ≤ stepOf (filterParams params₀ kwargs))
    (hmax : 1 ≤ maxPatternsOf (filterParams params₀ kwargs))
    (hsave : fs.saveOk = true) :
    ∃ out st', filterSignal fs params₀ st sig kwargs = .ok (out, st') ∧
      out.length = sig.length :=
  filterSignal_ok fs params₀ st sig kwargs hne hstep hmax hsave

/-- C1 (witness): the amended length-preservation theorem applied to the
one-sample signal `[1]` under the default parameters. -/
theorem c1_length_preservation_witness :
    ([(1:ℝ)] ≠ []) ∧
    1 ≤ stepOf (filterParams defaultParams []) ∧
    1 ≤ maxPatternsOf (filterParams defaultParams []) ∧
    fsPlain.saveOk = true ∧
    (∃ out st', filterSignal fsPlain defaultParams [] [(1:ℝ)] [] = .ok (out, st') ∧
      out.length = [(1:ℝ)].length) := by
  refine ⟨by simp, ?_, ?_, rfl, ?_⟩
  · norm_num +decide [stepOf, wsOf, overlapOf, getParam, asNat, filterParams, dictUpdate,
      defaultParams, List.lookup, beq_false_of_ne,
      show (Int.toNat 1000 : ℕ) = 1000 from rfl]
  · norm_num +decide [maxPatternsOf, getParam, asNat, filterParams, dictUpdate,
      defaultParams, List.lookup, beq_false_of_ne]
  · exact c1_length_preservation fsPlain defaultParams [] [(1:ℝ)] [] (by simp)
      (by norm_num +decide [stepOf, wsOf, overlapOf, getParam, asNat, filterParams, dictUpdate,
        defaultParams, List.lookup, beq_false_of_ne,
        show (Int.toNat 1000 : ℕ) = 1000 from rfl])
      (by norm_num +decide [maxPatternsOf, getParam, asNat, filterParams, dictUpdate,
        defaultParams, List.lookup, beq_false_of_ne])
      rfl

/-- C4 (counterexample): with `window_size = 1` and `overlap = 0.5` the claim
demands a clamped step of 1 and windows at every offset; the code instead
computes `int(1 * 0.5) = 0` and Python's `range` raises `ValueError`. -/
theorem c4_counterexample :
    extractWindowsCore [(0:ℝ), 0, 0] 1 (1/2) = .error .rangeZeroStep := by
  norm_num [extractWindowsCore, asNat]

/-- C4 (amended): for `window_size ≥ 1` and `0 ≤ overlap < 1`, window
extraction computes `step = floor(window_size * (1 - overlap))` with NO
clamping: when the step is 0 both extraction entry points raise (modelled as
`rangeZeroStep`); when the step is at least 1 the result is exactly the
windows at offsets `0, step, 2*step, ...` with `offset + window_size ≤
length`, in ascending order (`specWindows`), and `utils.extract_windows`
agrees with the in-filter loop. -/
theorem c4_window_extraction (sig : List ℝ) (ws : ℕ) (ov : ℚ)
    (hws : 1 ≤ ws) (hov0 : 0 ≤ ov) (hov1 : ov < 1) :
    (asNat ((ws : ℚ) * (1 - ov)) = 0 →
      extractWindowsCore sig ws ov = .error .rangeZeroStep ∧
      extract_windows sig ws ov = .error .rangeZeroStep) ∧
    (1 ≤ asNat ((ws : ℚ) * (1 - ov)) →
      extractWindowsCore sig ws ov =
        .ok (specWindows sig ws (asNat ((ws : ℚ) * (1 - ov)))) ∧
      extract_windows sig ws ov = extractWindowsCore sig ws ov) := by
  constructor
  · intro h0
    have hcore : extractWindowsCore sig ws ov = .error .rangeZeroStep := by
      unfold extractWindowsCore
      rw [if_pos h0]
    refine ⟨hcore, ?_⟩
    unfold extract_windows
    rw [if_neg (not_not_intro ⟨hov0, hov1⟩)]
    exact hcore
  · intro h1
    refine ⟨extractWindowsCore_eq_spec sig ws ov hws h1, ?_⟩
    unfold extract_windows
    rw [if_neg (not_not_intro ⟨hov0, hov1⟩)]

/-- C4 (witness): the amended extraction theorem applied to a 3-sample signal
with `window_size = 2`, `overlap = 0.5` (step 1): both branches are
instantiated, the step-1 branch yielding the two overlapping windows. -/
theorem c4_window_extraction_witness :
    ((1:ℕ) ≤ 2 ∧ (0:ℚ) ≤ 1/2 ∧ (1/2:ℚ) < 1) ∧
    (1 ≤ asNat ((2 : ℚ) * (1 - 1/2)) →
      extractWindowsCore [(0:ℝ), 0, 0] 2 (1/2) =
        .ok (specWindows [(0:ℝ), 0, 0] 2 (asNat ((2 : ℚ) * (1 - 1/2)))) ∧
      extract_windows [(0:ℝ), 0, 0] 2 (1/2) = extractWindowsCore [(0:ℝ), 0, 0] 2 (1/2)) := by
  refine ⟨⟨by norm_num, by norm_num, by norm_num⟩, ?_⟩
  exact (c4_window_extraction [(0:ℝ), 0, 0] 2 (1/2) (by norm_num) (by norm_num) (by norm_num)).2

/-- C5 (counterexample): a one-sample signal under the default
`window_size = 1000` is strictly shorter than one window; the claim demands
the input back unchanged, but `filter` returns the all-zero buffer
(`filtered_signal` stays `np.zeros_like(signal)` and is divided by the
clamped weights), so the result differs from the input. -/
theorem c5_counterexample :
    filterSignal fsPlain defaultParams [] [(1:ℝ)] [] ≠ .ok ([(1:ℝ)], []) := by
  rw [filterSignal_short fsPlain defaultParams [] [(1:ℝ)] [] (by simp)
    (by norm_num +decide [wsOf, getParam, asNat, filterParams, dictUpdate,
      defaultParams, List.lookup, beq_false_of_ne])
    (by norm_num +decide [stepOf, wsOf, overlapOf, getParam, asNat, filterParams, dictUpdate,
      defaultParams, List.lookup, beq_false_of_ne,
      show (Int.toNat 1000 : ℕ) = 1000 from rfl])
    rfl]
  intro h
  have := (Except.ok.injEq _ _).mp h
  have h0 : (List.replicate 1 (0:ℝ)) = [(1:ℝ)] := congrArg Prod.fst this
  simp [List.replicate] at h0

/-- C5 (amended): for every non-empty signal strictly shorter than one
window, provided the computed step is at least 1 (so `range` does not raise)
and the pattern save succeeds, `filter` returns the all-zero signal of the
input's length — a documented fallback of the overlap-add normalization, not
an error, but not the input unchanged either.  The store is left as loaded. -/
theorem c5_short_signal_zeros (fs : FileSystem) (params₀ : Params) (st : Store)
    (sig : List ℝ) (kwargs : Params) (hne : sig ≠ [])
    (hshort : sig.length < wsOf (filterParams params₀ kwargs))
    (hstep : 1 ≤ stepOf (filterParams params₀ kwargs))
    (hsave : fs.saveOk = true) :
    filterSignal fs params₀ st sig kwargs = .ok (List.replicate sig.length 0, st) :=
  filterSignal_short fs params₀ st sig kwargs hne hshort hstep hsave

/-- C5 (witness): the amended degenerate-case theorem applied to the
two-sample signal `[2, 3]` under the default parameters. -/
theorem c5_short_signal_zeros_witness :
    ([(2:ℝ), 3] ≠ []) ∧
    [(2:ℝ), 3].length < wsOf (filterParams defaultParams []) ∧
    1 ≤ stepOf (filterParams defaultParams []) ∧
    fsPlain.saveOk = true ∧
    filterSignal fsPlain defaultParams [] [(2:ℝ), 3] [] =
      .ok (List.replicate [(2:ℝ), 3].length 0, []) := by
  refine ⟨by simp, ?_, ?_, rfl, ?_⟩
  · norm_num +decide [wsOf, getParam, asNat, filterParams, dictUpdate,
      defaultParams, List.lookup, beq_false_of_ne]
  · norm_num +decide [stepOf, wsOf, overlapOf, getParam, asNat, filterParams, dictUpdate,
      defaultParams, List.lookup, beq_false_of_ne,
      show (Int.toNat 1000 : ℕ) = 1000 from rfl]
  · exact c5_short_signal_zeros fsPlain defaultParams [] [(2:ℝ), 3] [] (by simp)
      (by norm_num +decide [wsOf, getParam, asNat, filterParams, dictUpdate,
        defaultParams, List.lookup, beq_false_of_ne])
      (by norm_num +decide [stepOf, wsOf, overlapOf, getParam, asNat, filterParams, dictUpdate,
        defaultParams, List.lookup, beq_false_of_ne,
        show (Int.toNat 1000 : ℕ) = 1000 from rfl])
      rfl

/-- C6: a match record is produced by `_find_matching_patterns` exactly for
the stored patterns whose template length equals the window's and whose
Pearson correlation with the window is defined (`some`) and strictly above
the threshold.  Zero-variance windows or templates give an undefined
correlation (`pearson` returns `none`, numpy's `nan`), so they can never
satisfy the right-hand side: they are non-matches and no error is raised.
The matcher is a pure function of the store, which it only reads. -/
theorem c6_matcher_exact (store : Store) (w : List ℝ) (θ : ℚ) (m : Match) :
    m ∈ findMatchingPatterns store w θ ↔
      ((m.id, m.pattern) ∈ store ∧ m.pattern.signal.length = w.length ∧
        pearson w m.pattern.signal = some m.correlation ∧ (θ : ℝ) < m.correlation) :=
  mem_findMatchingPatterns store w θ m

/-- C7: when `pattern_id` is present, `update_pattern` stores the
exponentially blended template, the clamped confidence
`min(1.0, confidence + 0.1)`, the incremented observation count, and a reset
`last_updated`; and the clamped confidence stays inside `[0, 1]` whenever the
old confidence was. -/
theorem c7_update_pattern (p : Params) (store : Store) (pid : String) (pat : Pattern)
    (w : List ℝ) (hlook : store.lookup pid = some pat) :
    (updatePattern p store pid w).lookup pid = some
      ⟨List.zipWith (fun a b => (1 - (lrOf p : ℝ)) * a + (lrOf p : ℝ) * b) pat.signal w,
       min 1 (pat.confidence + 1/10), pat.count + 1, 0⟩ ∧
    (0 ≤ pat.confidence → pat.confidence ≤ 1 →
      0 ≤ min 1 (pat.confidence + 1/10) ∧ min 1 (pat.confidence + 1/10) ≤ 1) := by
  constructor
  · unfold updatePattern
    rw [hlook]
    exact lookup_dictInsert_self store pid _
  · intro h0 _
    constructor
    · exact le_min (by norm_num) (by linarith)
    · exact min_le_left _ _

/-- C7 (witness): the update theorem applied to a singleton store whose
pattern starts at confidence 0.95 (the spec's own test vector), verifying the
clamp to 1. -/
theorem c7_update_pattern_witness :
    (([("p0", (⟨[(2:ℝ)], 19/20, 3, 7⟩ : Pattern))] : Store).lookup "p0" =
      some ⟨[(2:ℝ)], 19/20, 3, 7⟩) ∧
    ((updatePattern defaultParams [("p0", ⟨[(2:ℝ)], 19/20, 3, 7⟩)] "p0" [(0:ℝ)]).lookup "p0" =
      some ⟨List.zipWith (fun a b => (1 - (lrOf defaultParams : ℝ)) * a +
          (lrOf defaultParams : ℝ) * b) [(2:ℝ)] [(0:ℝ)],
        min 1 ((19:ℚ)/20 + 1/10), 3 + 1, 0⟩ ∧
      (0 ≤ (19:ℚ)/20 → (19:ℚ)/20 ≤ 1 →
        0 ≤ min 1 ((19:ℚ)/20 + 1/10) ∧ min 1 ((19:ℚ)/20 + 1/10) ≤ 1)) :=
  ⟨rfl, c7_update_pattern defaultParams [("p0", ⟨[(2:ℝ)], 19/20, 3, 7⟩)] "p0"
    ⟨[(2:ℝ)], 19/20, 3, 7⟩ [(0:ℝ)] rfl⟩

/-- C8 (counterexample): with a filesystem whose write fails, `filter` on a
valid signal propagates the exception from `save_patterns` (there is no
handler), returning no filtered output — the claim's "filter still returns
the filtered output" fails. -/
theorem c8_counterexample :
    filterSignal fsNoWrite defaultParams [] [(1:ℝ)] [] = .error .saveFailure := by
  norm_num +decide [filterSignal, fsNoWrite, filterParams, dictUpdate, defaultParams,
    extractWindowsCore, asNat, wsOf, overlapOf, getParam, List.lookup, numWindows,
    processSignal, processWindows, savePatterns, beq_false_of_ne,
    show (Int.toNat 1000 : ℕ) = 1000 from rfl]

/-- C8 (amended): a MISSING pattern file is non-fatal and yields the empty
store, but an unreadable existing file propagates `json.load`'s error out of
construction, and a failing save propagates out of `filter`, which then
returns no output at all. -/
theorem c8_persistence (fs : FileSystem) (params₀ : Params) (st : Store)
    (sig : List ℝ) (kwargs : Params) (out : List ℝ) (st' : Store) :
    (fs.fileExists = false → loadPatterns fs = .ok []) ∧
    (fs.fileExists = true → fs.loadResult = .error () →
      loadPatterns fs = .error .loadFailure) ∧
    (fs.saveOk = false → filterSignal fs params₀ st sig kwargs ≠ .ok (out, st')) := by
  refine ⟨?_, ?_, ?_⟩
  · intro h
    simp [loadPatterns, h]
  · intro h1 h2
    simp [loadPatterns, h1, h2]
  · intro hsv hok
    unfold filterSignal at hok
    by_cases hemp : sig.isEmpty = true
    · rw [if_pos hemp] at hok
      exact absurd hok (by simp)
    · rw [if_neg hemp] at hok
      dsimp only at hok
      cases hex : extractWindowsCore sig (wsOf (filterParams params₀ kwargs))
          (overlapOf (filterParams params₀ kwargs)) with
      | error e =>
        rw [hex] at hok
        simp at hok
      | ok windows =>
        rw [hex] at hok
        dsimp only at hok
        cases hps : processSignal (filterParams params₀ kwargs) st sig windows with
        | error e =>
          rw [hps] at hok
          simp at hok
        | ok pr =>
          rw [hps] at hok
          obtain ⟨o2, s2⟩ := pr
          dsimp only at hok
          rw [show savePatterns fs s2 = .error .saveFailure from by
            simp [savePatterns, hsv]] at hok
          simp at hok

/-- C8 (witness): the three amended persistence behaviours instantiated: a
missing file loads as the empty store, a corrupt existing file fails
construction, and a failing save aborts a concrete `filter` call. -/
theorem c8_persistence_witness :
    (loadPatterns ⟨false, .ok [], true⟩ = .ok []) ∧
    (loadPatterns ⟨true, .error (), true⟩ = .error .loadFailure) ∧
    (filterSignal fsNoWrite defaultParams [] [(1:ℝ)] [] ≠ .ok ([(1:ℝ)], [])) :=
  ⟨(c8_persistence ⟨false, .ok [], true⟩ [] [] [] [] [] []).1 rfl,
   (c8_persistence ⟨true, .error (), true⟩ [] [] [] [] [] []).2.1 rfl rfl,
   (c8_persistence fsNoWrite defaultParams [] [(1:ℝ)] [] [(1:ℝ)] []).2.2 rfl⟩

/-- C9 (counterexample): `filter` merges its keyword arguments into
`self._parameters` with `dict.update`, so an unrecognized option DOES enter
the filter's parameter set, contrary to the claim. -/
theorem c9_counterexample :
    (filterParams defaultParams [("custom_junk", 3)]).lookup "custom_junk" = some 3 := rfl

/-- C9 (amended): `set_parameters` ignores unrecognized options (a key absent
from the parameter dict is never added) and options it is not given keep
their prior values; `filter`'s keyword merge also keeps every option it is
not given — but an unrecognized keyword IS stored in the parameter dict by
the merge (see the counterexample), even though the algorithm reads only the
five recognized keys. -/
theorem c9_parameters (params other kwargs : Params) (k : String) :
    (params.lookup k = none → (setParameters params other).lookup k = none) ∧
    (other.lookup k = none → (setParameters params other).lookup k = params.lookup k) ∧
    (kwargs.lookup k = none → (filterParams params kwargs).lookup k = params.lookup k) :=
  ⟨lookup_setParameters_absent params other k,
   lookup_setParameters_not_given params other k,
   lookup_dictUpdate_not_given params kwargs k⟩

/-- C9 (witness): the parameter-frame theorem applied to the default dict:
`set_parameters` with an unrecognized `custom_junk` leaves the dict without
that key, and neither update path touches the untouched `overlap` entry. -/
theorem c9_parameters_witness :
    (defaultParams.lookup "custom_junk" = none ∧
      (setParameters defaultParams [("custom_junk", 3)]).lookup "custom_junk" = none) ∧
    (([("window_size", (5:ℚ))] : Params).lookup "overlap" = none ∧
      (setParameters defaultParams [("window_size", (5:ℚ))]).lookup "overlap" =
        defaultParams.lookup "overlap" ∧
      (filterParams defaultParams [("window_size", (5:ℚ))]).lookup "overlap" =
        defaultParams.lookup "overlap") :=
  ⟨⟨rfl, (c9_parameters defaultParams [("custom_junk", 3)] [] "custom_junk").1 rfl⟩,
   ⟨rfl, (c9_parameters defaultParams [("window_size", (5:ℚ))] [("window_size", (5:ℚ))]
      "overlap").2.1 rfl,
    (c9_parameters defaultParams [("window_size", (5:ℚ))] [("window_size", (5:ℚ))]
      "overlap").2.2 rfl⟩⟩

/-- C10: `get_pattern_statistics` returns the zero record on an empty store
without raising, and on a non-empty store the number of patterns, the
arithmetic mean of the stored confidences, and the summed observation
counts. -/
theorem c10_statistics (store : Store) :
    (store = [] → getPatternStatistics store = ⟨0, 0, 0⟩) ∧
    (store ≠ [] →
      (getPatternStatistics store).total_patterns = store.length ∧
      (getPatternStatistics store).average_confidence =
        (store.map (fun kv => kv.2.confidence)).sum / store.length ∧
      (getPatternStatistics store).total_observations =
        (store.map (fun kv => kv.2.count)).sum) := by
  constructor
  · intro h
    subst h
    rfl
  · intro h
    have hne : store.isEmpty = false := by
      cases store with
      | nil => exact absurd rfl h
      | cons kv rest => rfl
    unfold getPatternStatistics
    rw [hne]
    exact ⟨rfl, rfl, rfl⟩

/-- C10 (witness): the statistics theorem applied to the empty store and to a
two-pattern store with confidences 0.4 and 0.9 and counts 1 and 3. -/
theorem c10_statistics_witness :
    (getPatternStatistics [] = ⟨0, 0, 0⟩) ∧
    (([("a", (⟨[], 2/5, 1, 0⟩ : Pattern)), ("b", ⟨[], 9/10, 3, 0⟩)] : Store) ≠ [] ∧
      (getPatternStatistics [("a", ⟨[], 2/5, 1, 0⟩), ("b", ⟨[], 9/10, 3, 0⟩)]).total_patterns =
        ([("a", (⟨[], 2/5, 1, 0⟩ : Pattern)), ("b", ⟨[], 9/10, 3, 0⟩)] : Store).length) :=
  ⟨(c10_statistics []).1 rfl,
   by simp,
   ((c10_statistics [("a", ⟨[], 2/5, 1, 0⟩), ("b", ⟨[], 9/10, 3, 0⟩)]).2 (by simp)).1⟩
